import Mathlib

/-!
Verification of the `mush` Advent-of-Code scaffolding/runner tool
(src/mush/src/{utils,fetch,results,commands,main}.rs) against its
natural-language specification.

Shallow embedding conventions:
* Rust `&str` values are Lean `String`s; the character-level primitives
  (`split`, `starts_with`, `trim`, `trim_end_matches`, `lines`) are
  re-implemented structurally over `String.data : List Char` so that all
  definitions are executable and kernel-reducible.
* `f64` timing values carry only exact decimal literals in this program, so
  they are modelled as exact rationals `ℚ`; `str::parse::<f64>` is modelled
  by `parseF64?` over the decimal grammar (non-finite literals such as
  `inf`/`NaN`, which the timing harness never emits, are not modelled).
* The filesystem is an explicit state `FS`: an association list from paths
  (component lists) to file contents plus the set of existing directories.
  Following POSIX semantics of `std::fs::File::create`, creating a file
  fails iff its parent directory does not exist; `create_dir_all` adds a
  directory together with all its ancestors.
* The HTTP layer and the per-day subprocess are external collaborators:
  they enter the model as explicit outcome values (`HttpOutcome`,
  `DayExec`) supplied to the embedded functions.
-/

/-! ## Character-level string primitives (Rust `str` methods) -/

/-- Rust `str::split(sep)` on a single separator character, over the char
list of the string: `"a:b".split(':')` is `["a", "b"]`, `""` gives `[""]`,
and separators at the ends produce empty segments. -/
def splitChar (sep : Char) : List Char → List (List Char)
  | [] => [[]]
  | c :: cs =>
    if c = sep then [] :: splitChar sep cs
    else
      match splitChar sep cs with
      | [] => [[c]]
      | hd :: tl => (c :: hd) :: tl

/-- Rust `str::starts_with(pre)`. -/
def rsStartsWith (s pre : String) : Bool :=
  pre.data.isPrefixOf s.data

/-- Rust `str::trim`: strip whitespace from both ends. -/
def rsTrim (s : String) : String :=
  String.mk (((s.data.dropWhile Char.isWhitespace).reverse.dropWhile Char.isWhitespace).reverse)

/-- Rust `str::trim_end`: strip whitespace from the end only. -/
def rsTrimEnd (s : String) : String :=
  String.mk ((s.data.reverse.dropWhile Char.isWhitespace).reverse)

/-- Helper for `trimEndMatchesMs`: repeatedly drop a leading reversed
`"ms"` (i.e. `['s', 'm']`) from a reversed char list. -/
def dropMsRev : List Char → List Char
  | 's' :: 'm' :: rest => dropMsRev rest
  | l => l

/-- Rust `str::trim_end_matches("ms")`: repeatedly strip a trailing
`"ms"` suffix. -/
def trimEndMatchesMs (s : String) : String :=
  String.mk (dropMsRev s.data.reverse).reverse

/-- The segments of a line split on `':'`, as in `line.split(':')`. -/
def rsSplitColon (s : String) : List String :=
  (splitChar ':' s.data).map String.mk

/-- Strip one trailing carriage return (used by `str::lines` for `\r\n`
line endings). -/
def stripCrEnd (l : List Char) : List Char :=
  if l.getLast? = some '\r' then l.dropLast else l

/-- Rust `str::lines()`: split on `'\n'`, dropping one `'\r'` before each
`'\n'`, with an optional final line terminator producing no extra empty
line, and the empty string producing no lines at all. -/
def rsLines (s : String) : List String :=
  match (splitChar '\n' s.data).reverse with
  | [] => []
  | lastSeg :: revInit =>
    let initLines := (revInit.reverse).map (fun l => String.mk (stripCrEnd l))
    if lastSeg.isEmpty then initLines else initLines ++ [String.mk lastSeg]

/-! ## `str::parse::<f64>` over the finite decimal grammar -/

/-- Numeric value of a list of decimal digit characters. -/
def digitsToNat (ds : List Char) : Nat :=
  ds.foldl (fun a c => 10 * a + (c.toNat - 48)) 0

/-- Exponent tail of a float literal: optional sign, then at least one
digit, then end of input. -/
def parseExpTail (mant : ℚ) (t : List Char) : Option ℚ :=
  let esgn : ℤ :=
    match t with
    | '-' :: _ => -1
    | _ => 1
  let t1 :=
    match t with
    | '+' :: u => u
    | '-' :: u => u
    | u => u
  let edigits := t1.takeWhile Char.isDigit
  let rest := t1.dropWhile Char.isDigit
  if edigits.isEmpty || !rest.isEmpty then none
  else some (mant * (10 : ℚ) ^ (esgn * (digitsToNat edigits : ℤ)))

/-- Model of `str::parse::<f64>` restricted to finite decimal literals
(`[+-]? digits [. digits]? [(e|E) [+-]? digits]?`, with at least one digit
in the mantissa), returning the exact rational value. -/
def parseF64? (s : String) : Option ℚ :=
  let cs0 := s.data
  let sgn : ℚ :=
    match cs0 with
    | '-' :: _ => -1
    | _ => 1
  let cs1 :=
    match cs0 with
    | '+' :: t => t
    | '-' :: t => t
    | t => t
  let ipart := cs1.takeWhile Char.isDigit
  let cs2 := cs1.dropWhile Char.isDigit
  let fpart :=
    match cs2 with
    | '.' :: t => t.takeWhile Char.isDigit
    | _ => []
  let cs3 :=
    match cs2 with
    | '.' :: t => t.dropWhile Char.isDigit
    | t => t
  let mant : ℚ := sgn * ((digitsToNat ipart : ℚ) + (digitsToNat fpart : ℚ) / (10 : ℚ) ^ fpart.length)
  if ipart.isEmpty && fpart.isEmpty then none
  else
    match cs3 with
    | [] => some mant
    | 'e' :: t => parseExpTail mant t
    | 'E' :: t => parseExpTail mant t
    | _ => none

/-! ## results.rs: `DayResult` and `parse_part` -/

/-- `DayResult` (results.rs): parsed outcome of one day's run. Timing
values are exact rationals standing for the `f64` milliseconds. -/
structure DayResult where
  day : Nat
  part1_result : Option String
  part1_time : Option ℚ
  part2_result : Option String
  part2_time : Option ℚ
deriving DecidableEq

/-- `DayResult::total_time`: sum of the present part times, absent parts
counting as zero. -/
def DayResult.total_time (r : DayResult) : ℚ :=
  r.part1_time.getD 0 + r.part2_time.getD 0

/-- One iteration of the `for line in output.lines()` loop of
`parse_part` (results.rs), acting on the `(result, time)` state. -/
def parseStep (part_name : String) (st : Option String × Option ℚ) (line : String) :
    Option String × Option ℚ :=
  if rsStartsWith line part_name then
    match (rsSplitColon line)[1]? with
    | some value => (some (rsTrim value), st.2)
    | none => st
  else if rsStartsWith line "Time:" && st.1.isSome && st.2.isNone then
    match (rsSplitColon line)[1]? with
    | some time_str =>
      match parseF64? (trimEndMatchesMs (rsTrim time_str)) with
      | some t => (st.1, some t)
      | none => st
    | none => st
  else st

/-- `parse_part` (results.rs): scan the captured output line by line,
recording a result from lines starting with `part_name` and a time from
`Time:` lines seen after a result and before any time. -/
def parse_part (output part_name : String) : Option String × Option ℚ :=
  (rsLines output).foldl (parseStep part_name) (none, none)

/-- Specification-side description of what a single line contributes to
the result component of `parse_part`: a line starting with the label
yields the second colon-segment, trimmed, and any other line yields
nothing. -/
def lineValue (part_name line : String) : Option String :=
  if rsStartsWith line part_name then ((rsSplitColon line)[1]?).map rsTrim else none

/-- Pick the first defined of two optional values (left-biased). -/
def orO {α : Type} (a b : Option α) : Option α :=
  match a with
  | some x => some x
  | none => b

/-! ## utils.rs: the filesystem model and `create_file` -/

/-- A filesystem path, as its list of components relative to the working
directory (`[]` is the working directory itself). -/
abbrev FsPath := List String

/-- Filesystem state: files (path with content) and existing directories.
The parent directory of a path is its `dropLast`. -/
structure FS where
  files : List (FsPath × String)
  dirs : List FsPath
deriving DecidableEq

/-- Content of the file at `p`, if one exists. -/
def FS.fileContent (fs : FS) (p : FsPath) : Option String :=
  fs.files.lookup p

/-- Rust `Path::exists` for files. -/
def FS.fileExists (fs : FS) (p : FsPath) : Bool :=
  (fs.fileContent p).isSome

/-- Whether directory `p` exists. -/
def FS.dirExists (fs : FS) (p : FsPath) : Bool :=
  fs.dirs.contains p

/-- Well-formedness of a filesystem state: every file's parent directory
exists (true of any state a POSIX filesystem can be in). -/
def FS.wf (fs : FS) : Bool :=
  fs.files.all (fun pc => fs.dirs.contains pc.1.dropLast)

/-- Overwrite-or-create a file (Rust `fs::write`; used only to model a
user's manual edit between scaffold invocations). -/
def FS.writeFile (fs : FS) (p : FsPath) (c : String) : FS :=
  { fs with files := (p, c) :: fs.files.filter (fun pc => !(pc.1 == p)) }

/-- All ancestor directories of `p`, including `p` itself and the working
directory. -/
def pathPrefixes (p : FsPath) : List FsPath :=
  (List.range (p.length + 1)).map (fun n => p.take n)

/-- Rust `fs::create_dir_all`: create the directory and all missing
ancestors (deterministic model: always succeeds). -/
def FS.createDirAll (fs : FS) (p : FsPath) : FS :=
  { fs with dirs := pathPrefixes p ++ fs.dirs }

/-- Filesystem error kinds surfaced by `create_file` (utils.rs documents
creation failure and write failure; in the deterministic model only
creation failure — missing parent directory — occurs). -/
inductive IoError
  | CreateFailed
  | WriteFailed
deriving DecidableEq

/-- `create_file` (utils.rs): if a file already exists at `path`, do
nothing and report success; otherwise create it with `content`, which per
`File::create` semantics fails when the parent directory is missing. -/
def create_file (fs : FS) (path : FsPath) (content : String) : Except IoError FS :=
  if fs.fileExists path then Except.ok fs
  else if fs.dirExists path.dropLast then
    Except.ok { fs with files := (path, content) :: fs.files }
  else Except.error IoError.CreateFailed

/-! ## fetch.rs and main.rs: the two Input Fetcher variants -/

/-- Typed fetch errors (spec section 7). -/
inductive FetchError
  | MissingCredential
  | RequestFailed
  | ServerError (status : Nat)
  | ReadFailed
deriving DecidableEq

/-- Outcome of the one HTTP GET, as seen by the fetcher: a network-level
send failure, or a response with a status code and a body that either
decodes to text or fails to decode (`none`). -/
inductive HttpOutcome
  | sendError
  | response (status : Nat) (body : Option String)
deriving DecidableEq

/-- `reqwest::StatusCode::is_success`: 2xx. -/
def statusIsSuccess (status : Nat) : Bool :=
  200 ≤ status && status ≤ 299

/-- `fetch_input_with_base_url` (fetch.rs variant): check the session
credential, send the request, map non-2xx to `ServerError`, and return
the decoded body verbatim. -/
def fetch_input_with_base_url_fetch_rs (day year : Nat) (base_url : String)
    (session : Option String) (http : HttpOutcome) : Except FetchError String :=
  match session with
  | none => Except.error FetchError.MissingCredential
  | some _ =>
    let _url := base_url ++ "/" ++ toString year ++ "/day/" ++ toString day ++ "/input"
    match http with
    | HttpOutcome.sendError => Except.error FetchError.RequestFailed
    | HttpOutcome.response status body =>
      if statusIsSuccess status then
        match body with
        | some text => Except.ok text
        | none => Except.error FetchError.ReadFailed
      else Except.error (FetchError.ServerError status)

/-- `fetch_input_with_base_url` (main.rs variant): identical to the
fetch.rs variant except that the decoded body is returned with trailing
whitespace trimmed (`text.trim_end().to_string()`). -/
def fetch_input_with_base_url_main_rs (day year : Nat) (base_url : String)
    (session : Option String) (http : HttpOutcome) : Except FetchError String :=
  match session with
  | none => Except.error FetchError.MissingCredential
  | some _ =>
    let _url := base_url ++ "/" ++ toString year ++ "/day/" ++ toString day ++ "/input"
    match http with
    | HttpOutcome.sendError => Except.error FetchError.RequestFailed
    | HttpOutcome.response status body =>
      if statusIsSuccess status then
        match body with
        | some text => Except.ok (rsTrimEnd text)
        | none => Except.error FetchError.ReadFailed
      else Except.error (FetchError.ServerError status)

/-! ## commands.rs: scaffold generation -/

/-- Two-digit zero-padded day (`format!("{:02}", day)`). -/
def pad2 (n : Nat) : String :=
  if n < 10 then "0" ++ toString n else toString n

/-- `day{:02}` directory name. -/
def dayDirName (day : Nat) : String :=
  "day" ++ pad2 day

/-- `day{:02}-{year}` package name. -/
def packageName (day year : Nat) : String :=
  dayDirName day ++ "-" ++ toString year

/-- `solutions/{year}/day{:02}` base path of one day's scaffold. -/
def basePath (day year : Nat) : FsPath :=
  ["solutions", toString year, dayDirName day]

/-- The per-day `Cargo.toml` content generated by `create_scaffold`. -/
def cargoTomlContent (day year : Nat) : String :=
  "[package]\nname = \"" ++ packageName day year ++
    "\"\nversion = \"0.1.0\"\nedition = \"2021\"\n\n[dependencies]\nitertools = \"0.10.5\"\nregex = \"1.10.3\"\n"

/-- The solution template `main.rs` generated by `create_scaffold`. -/
def mainRsContent : String :=
  "fn main() \x7b\n    let input = include_str!(\"../input.txt\");\n\n    let start = std::time::Instant::now();\n    println!(\"Part 1: \x7b\x7d\", part1(input));\n    println!(\"Time: \x7b:.4\x7dms\", start.elapsed().as_secs_f64() * 1000.0);\n\n    let start = std::time::Instant::now();\n    println!(\"Part 2: \x7b\x7d\", part2(input));\n    println!(\"Time: \x7b:.4\x7dms\", start.elapsed().as_secs_f64() * 1000.0);\n\x7d\n\nfn part1(input: &str) -> usize \x7b\n    0\n\x7d\n\nfn part2(input: &str) -> usize \x7b\n    0\n\x7d\n\n#[cfg(test)]\nmod tests \x7b\n    use super::*;\n\n    #[test]\n    fn test_part1_example() \x7b\n        let example_input = include_str!(\"../example.txt\");\n        assert_eq!(part1(example_input), 0);\n    \x7d\n\x7d\n"

/-- `create_scaffold` (commands.rs): create the directory tree, then the
manifest, solution template, `input.txt` (fetching when the file is
absent or present-but-empty; the fetch outcome enters as the `fetched`
argument, a failed fetch falling back to empty content), and an empty
`example.txt` when absent. -/
def create_scaffold (fs0 : FS) (day year : Nat) (fetched : Except FetchError String) :
    Except IoError FS :=
  let base := basePath day year
  let src_path := base ++ ["src"]
  let fs1 := fs0.createDirAll src_path
  match create_file fs1 (base ++ ["Cargo.toml"]) (cargoTomlContent day year) with
  | Except.error e => Except.error e
  | Except.ok fs2 =>
    match create_file fs2 (src_path ++ ["main.rs"]) mainRsContent with
    | Except.error e => Except.error e
    | Except.ok fs3 =>
      let input_path := base ++ ["input.txt"]
      let afterInput :=
        if !(fs3.fileExists input_path) || ((fs3.fileContent input_path).getD "").data.isEmpty then
          match fetched with
          | Except.ok input_data => create_file fs3 input_path input_data
          | Except.error _ => create_file fs3 input_path ""
        else Except.ok fs3
      match afterInput with
      | Except.error e => Except.error e
      | Except.ok fs4 =>
        let example_path := base ++ ["example.txt"]
        match (if !(fs4.fileExists example_path) then create_file fs4 example_path "" else Except.ok fs4) with
        | Except.error e => Except.error e
        | Except.ok fs5 => Except.ok fs5

/-! ## commands.rs: batch running and aggregation -/

/-- `core::cmp::min_by`: keep the first argument unless it compares
strictly greater. -/
def cmpMinBy {α : Type} (cmp : α → α → Ordering) (v1 v2 : α) : α :=
  if cmp v1 v2 = Ordering.gt then v2 else v1

/-- `core::cmp::max_by`: keep the second argument unless the first
compares strictly greater. -/
def cmpMaxBy {α : Type} (cmp : α → α → Ordering) (v1 v2 : α) : α :=
  if cmp v1 v2 = Ordering.gt then v1 else v2

/-- `Iterator::min_by`: reduce with `cmp::min_by` (ties keep the earlier
element). -/
def rustMinBy {α : Type} (cmp : α → α → Ordering) : List α → Option α
  | [] => none
  | x :: xs => some (List.foldl (cmpMinBy cmp) x xs)

/-- `Iterator::max_by`: reduce with `cmp::max_by` (ties keep the later
element). -/
def rustMaxBy {α : Type} (cmp : α → α → Ordering) : List α → Option α
  | [] => none
  | x :: xs => some (List.foldl (cmpMaxBy cmp) x xs)

/-- Total-order comparison of rationals, modelling
`f64::partial_cmp(..).unwrap()` on the (never-NaN) timing values. -/
def ratCmp (a b : ℚ) : Ordering :=
  if a < b then Ordering.lt else if b < a then Ordering.gt else Ordering.eq

/-- The comparator closure of `run_all`:
`a.total_time().partial_cmp(&b.total_time()).unwrap()`. -/
def cmpByTotal (a b : DayResult) : Ordering :=
  ratCmp a.total_time b.total_time

/-- The aggregate report computed by `run_all` after the day loop:
`none` models the early `Aucun jour trouvé` return on an empty results
collection. -/
structure Summary where
  days_count : Nat
  total_time : ℚ
  avg_time : ℚ
  fastest : Option DayResult
  slowest : Option DayResult
deriving DecidableEq

/-- The aggregation step of `run_all` (commands.rs, after the loop):
total and average time plus fastest/slowest day selection. -/
def aggregate (results : List DayResult) : Option Summary :=
  if results.isEmpty then none
  else
    let total := List.foldl (fun acc r => acc + r.total_time) 0 results
    some
      { days_count := results.length
        total_time := total
        avg_time := total / (results.length : ℚ)
        fastest := rustMinBy cmpByTotal results
        slowest := rustMaxBy cmpByTotal results }

/-- What the external world does for one day of the batch loop: the
scaffold directory may be missing, the `cargo run` subprocess may fail to
launch, or it exits (successfully or not) with captured stdout. -/
inductive DayExec
  | missing
  | launchFailed
  | exited (success : Bool) (stdout : String)
deriving DecidableEq

/-- Batch-runner errors that abort `run_all` (only a subprocess launch
failure propagates out of the loop through `?`). -/
inductive RunError
  | SubprocessLaunchFailed
deriving DecidableEq

/-- Assemble a `DayResult` from a day's captured stdout, as the loop body
of `run_all` does. -/
def mkDayResult (day : Nat) (stdout : String) : DayResult :=
  { day := day
    part1_result := (parse_part stdout "Part 1").1
    part1_time := (parse_part stdout "Part 1").2
    part2_result := (parse_part stdout "Part 2").1
    part2_time := (parse_part stdout "Part 2").2 }

/-- The day loop of `run_all`: a missing scaffold directory is skipped, a
launch failure aborts the loop, a non-zero exit is skipped, and a
successful exit appends a parsed `DayResult`. -/
def runDays (exec : Nat → DayExec) : List Nat → List DayResult → Except RunError (List DayResult)
  | [], acc => Except.ok acc
  | d :: ds, acc =>
    match exec d with
    | DayExec.missing => runDays exec ds acc
    | DayExec.launchFailed => Except.error RunError.SubprocessLaunchFailed
    | DayExec.exited success stdout =>
      if success then runDays exec ds (acc ++ [mkDayResult d stdout])
      else runDays exec ds acc

/-- `run_all` (commands.rs): loop over days 1 through 25 collecting
results; the returned list is the results collection the aggregate
report is computed from. -/
def run_all (exec : Nat → DayExec) : Except RunError (List DayResult) :=
  runDays exec (List.range' 1 25) []

/-- The days whose subprocess ran and exited successfully, with their
parsed results, in day order. -/
def execResult (exec : Nat → DayExec) (d : Nat) : Option DayResult :=
  match exec d with
  | DayExec.exited true stdout => some (mkDayResult d stdout)
  | _ => none

/-- All results `run_all` collects when no launch failure occurs. -/
def successResults (exec : Nat → DayExec) : List DayResult :=
  (List.range' 1 25).filterMap (execResult exec)

/-! ## Concrete states and inputs used by witnesses and counterexamples -/

/-- A filesystem holding only the working directory. -/
def fsRootOnly : FS :=
  { files := [], dirs := [[]] }

/-- State before a re-scaffold of day 1, 2024: a previous run left an
empty `input.txt` (the fetch-failure fallback), directories present. -/
def c1_preState : FS :=
  { files := [(["solutions", "2024", "day01", "input.txt"], "")]
    dirs := pathPrefixes ["solutions", "2024", "day01", "src"] }

/-- First scaffold of day 5, 2024 from an empty filesystem, with the
fetch failing (no credential). -/
def c4_fs1 : FS :=
  (create_scaffold fsRootOnly 5 2024 (Except.error FetchError.MissingCredential)).toOption.getD fsRootOnly

/-- The user manually edits the generated solution template. -/
def c4_fs1e : FS :=
  c4_fs1.writeFile ["solutions", "2024", "day05", "src", "main.rs"] "// Modified content"

/-- Second scaffold of the same day over the edited filesystem. -/
def c4_fs2 : FS :=
  (create_scaffold c4_fs1e 5 2024 (Except.error FetchError.MissingCredential)).toOption.getD fsRootOnly

/-- Result of materializing `notes.txt` with content `alpha` in the root
filesystem. -/
def c5_fs1 : FS :=
  { files := [(["notes.txt"], "alpha")], dirs := [[]] }

/-- A day result with total time 1 for day 1. -/
def c3_r1 : DayResult :=
  { day := 1, part1_result := some "a", part1_time := some 1
    part2_result := none, part2_time := none }

/-- A day result with total time 1 for day 2 (tie with `c3_r1`). -/
def c3_r2 : DayResult :=
  { day := 2, part1_result := some "b", part1_time := some 1
    part2_result := none, part2_time := none }

/-- A batch environment: day 1 succeeds, day 2 exits non-zero, all other
days have no scaffold directory. -/
def c6Exec (d : Nat) : DayExec :=
  if d = 1 then DayExec.exited true "Part 1: 42\nTime: 1.5ms\n"
  else if d = 2 then DayExec.exited false ""
  else DayExec.missing

/-! ## Helper lemmas for the parser state fold -/

theorem orO_none_left {α : Type} (b : Option α) : orO none b = b := rfl

theorem orO_none_right {α : Type} (a : Option α) : orO a none = a := by
  cases a <;> rfl

theorem orO_assoc {α : Type} (a b c : Option α) : orO (orO a b) c = orO a (orO b c) := by
  cases a <;> rfl

theorem getLast?_cons_orO {α : Type} (a : α) (t : List α) :
    (a :: t).getLast? = orO t.getLast? (some a) := by
  induction t generalizing a with
  | nil => rfl
  | cons b t' ih =>
    calc (a :: b :: t').getLast? = (b :: t').getLast? := List.getLast?_cons_cons
    _ = orO t'.getLast? (some b) := ih b
    _ = orO (orO t'.getLast? (some b)) (some a) := by rw [orO_assoc]; rfl
    _ = orO ((b :: t').getLast?) (some a) := by rw [ih b]

theorem parseStep_fst (part_name line : String) (st : Option String × Option ℚ) :
    (parseStep part_name st line).1 = orO (lineValue part_name line) st.1 := by
  unfold parseStep lineValue
  cases h1 : rsStartsWith line part_name with
  | true =>
    simp only [h1, if_true]
    cases h2 : (rsSplitColon line)[1]? <;> simp [h2, orO]
  | false =>
    simp only [h1, Bool.false_eq_true, if_false, orO]
    cases h2 : (rsStartsWith line "Time:" && (st.1.isSome && st.2.isNone)) with
    | false =>
      rw [show (rsStartsWith line "Time:" && st.1.isSome && st.2.isNone) = false by
        rw [Bool.and_assoc]; exact h2]
      simp
    | true =>
      rw [show (rsStartsWith line "Time:" && st.1.isSome && st.2.isNone) = true by
        rw [Bool.and_assoc]; exact h2]
      simp only [if_true]
      cases h3 : (rsSplitColon line)[1]? <;> simp [h3]
      case some ts =>
        cases h4 : parseF64? (trimEndMatchesMs (rsTrim ts)) <;> simp [h4]

theorem foldl_parseStep_fst (part_name : String) (lines : List String) :
    ∀ st : Option String × Option ℚ,
      (lines.foldl (parseStep part_name) st).1 =
        orO ((lines.filterMap (lineValue part_name)).getLast?) st.1 := by
  induction lines with
  | nil => intro st; rfl
  | cons l ls ih =>
    intro st
    rw [List.foldl_cons, ih (parseStep part_name st l)]
    cases hfl : lineValue part_name l with
    | none =>
      simp only [List.filterMap_cons, hfl]
      rw [parseStep_fst, hfl, orO_none_left]
    | some v =>
      simp only [List.filterMap_cons, hfl]
      rw [getLast?_cons_orO, orO_assoc, parseStep_fst, hfl]

/-- Claim C2 (amended): for every output text and label, the result
string captured by `parse_part` comes from the LAST line beginning with
the label that contains a colon — each later matching line with a colon
overwrites the previous capture (matching lines without a colon leave it
unchanged). -/
theorem C2_theorem (output part_name : String) :
    (parse_part output part_name).1 =
      ((rsLines output).filterMap (lineValue part_name)).getLast? := by
  unfold parse_part
  rw [foldl_parseStep_fst]
  exact orO_none_right _

/-- Claim C2 counterexample: on an output with two `Part 1` lines the
captured result is `"99"` from the second line, not `"42"` from the first
matching line as the claim states. -/
theorem C2_counterexample :
    (parse_part "Part 1: 42\nPart 1: 99" "Part 1").1 ≠ some "42" ∧
    (parse_part "Part 1: 42\nPart 1: 99" "Part 1").1 = some "99" := by
  constructor <;> decide

/-- Claim C7 (amended): for a single-line output beginning with the
label, the captured result string is the segment between the first and
second colons (or to the end of the line if there is no second colon),
trimmed — not everything after the first colon; a value containing a
colon is truncated at that colon. -/
theorem C7_theorem (output part_name line : String)
    (hlines : rsLines output = [line]) (hstart : rsStartsWith line part_name = true) :
    parse_part output part_name = (((rsSplitColon line)[1]?).map rsTrim, (none : Option ℚ)) := by
  unfold parse_part
  rw [hlines]
  show parseStep part_name (none, none) line = _
  unfold parseStep
  simp only [hstart, if_true]
  cases h2 : (rsSplitColon line)[1]? <;> simp [h2]

/-- Claim C7 counterexample: on the line `Part 1: 12:34` the captured
result is `"12"` (the segment before the second colon), not the full
value `"12:34"` the claim predicts. -/
theorem C7_counterexample :
    (parse_part "Part 1: 12:34" "Part 1").1 = some "12" ∧
    (some "12" : Option String) ≠ some "12:34" := by
  constructor <;> decide

/-- Witness for C7 at the concrete line `Part 1: 12:34`. -/
theorem C7_witness :
    parse_part "Part 1: 12:34" "Part 1" =
      (((rsSplitColon "Part 1: 12:34")[1]?).map rsTrim, (none : Option ℚ)) :=
  C7_theorem "Part 1: 12:34" "Part 1" "Part 1: 12:34" (by decide) (by decide)

theorem parseStep_inv (part_name line : String) (st : Option String × Option ℚ)
    (h : st.2.isSome = true → st.1.isSome = true) :
    (parseStep part_name st line).2.isSome = true →
      (parseStep part_name st line).1.isSome = true := by
  unfold parseStep
  cases h1 : rsStartsWith line part_name with
  | true =>
    simp only [h1, if_true]
    cases h2 : (rsSplitColon line)[1]? <;> simp [h2]
    exact h
  | false =>
    simp only [h1, Bool.false_eq_true, if_false]
    cases h2 : (rsStartsWith line "Time:" && st.1.isSome && st.2.isNone) with
    | false => simp only [h2, Bool.false_eq_true, if_false]; exact h
    | true =>
      have hr : st.1.isSome = true := by
        have h2' := h2
        simp only [Bool.and_eq_true] at h2'
        exact h2'.1.2
      simp only [h2, if_true]
      cases h3 : (rsSplitColon line)[1]? <;> simp [h3]
      case none => exact h
      case some ts =>
        cases h4 : parseF64? (trimEndMatchesMs (rsTrim ts)) <;> simp [h4]
        case none => exact h
        case some t => exact hr

theorem foldl_parseStep_inv (part_name : String) (lines : List String) :
    ∀ st : Option String × Option ℚ, (st.2.isSome = true → st.1.isSome = true) →
      (lines.foldl (parseStep part_name) st).2.isSome = true →
      (lines.foldl (parseStep part_name) st).1.isSome = true := by
  induction lines with
  | nil => intro st h; exact h
  | cons l ls ih =>
    intro st h
    simp only [List.foldl_cons]
    exact ih (parseStep part_name st l) (parseStep_inv part_name l st h)

/-- Claim C10: `parse_part` never returns a time without a result — when
the elapsed-time component is present, the result component is present as
well, because a `Time:` line is only examined once a result has been
captured and a captured result is never cleared. -/
theorem C10_theorem (output part_name : String)
    (h : (parse_part output part_name).2.isSome = true) :
    (parse_part output part_name).1.isSome = true :=
  foldl_parseStep_inv part_name (rsLines output) (none, none) (by simp) h

/-- Witness for C10 on an output carrying both a result and a time. -/
theorem C10_witness :
    (parse_part "Part 1: 42\nTime: 1.5ms" "Part 1").1.isSome = true :=
  C10_theorem "Part 1: 42\nTime: 1.5ms" "Part 1" (by decide)

/-! ## Helper lemmas for the filesystem model -/

theorem lookup_pair_mem : ∀ (l : List (FsPath × String)) (p : FsPath) (c : String),
    l.lookup p = some c → (p, c) ∈ l := by
  intro l
  induction l with
  | nil => intro p c h; simp [List.lookup] at h
  | cons kv t ih =>
    intro p c h
    obtain ⟨k, v⟩ := kv
    cases hk : (p == k) with
    | true =>
      have hpk : p = k := eq_of_beq hk
      simp only [List.lookup, hk] at h
      injection h with h'
      subst h'
      subst hpk
      exact List.mem_cons_self _ _
    | false =>
      simp only [List.lookup, hk] at h
      exact List.mem_cons_of_mem _ (ih p c h)

theorem create_file_preserves (fs : FS) (q : FsPath) (d : String) (fs2 : FS)
    (h : create_file fs q d = Except.ok fs2) (p : FsPath) (c : String)
    (hc : fs.fileContent p = some c) : fs2.fileContent p = some c := by
  unfold create_file at h
  cases h1 : fs.fileExists q with
  | true =>
    rw [if_pos h1] at h
    injection h with h'
    subst h'
    exact hc
  | false =>
    rw [if_neg (by simp [h1])] at h
    cases h2 : fs.dirExists q.dropLast with
    | false =>
      rw [if_neg (by simp [h2])] at h
      cases h
    | true =>
      rw [if_pos h2] at h
      injection h with h'
      subst h'
      unfold FS.fileContent at hc ⊢
      simp only [List.lookup]
      cases h3 : (p == q) with
      | true =>
        exfalso
        have hpq : p = q := eq_of_beq h3
        subst hpq
        unfold FS.fileExists FS.fileContent at h1
        rw [hc] at h1
        simp at h1
      | false =>
        exact hc

/-- Claim C5: materializer idempotence — if no file exists at `p` and
`create_file fs p c1` succeeds, the file then holds exactly `c1`, and a
second `create_file` with any other content performs no write and
returns success with the state unchanged. -/
theorem C5_theorem (fs : FS) (p : FsPath) (c1 c2 : String) (fs2 : FS)
    (hne : fs.fileExists p = false) (h : create_file fs p c1 = Except.ok fs2) :
    fs2.fileContent p = some c1 ∧ create_file fs2 p c2 = Except.ok fs2 := by
  unfold create_file at h
  rw [if_neg (by simp [hne])] at h
  cases h2 : fs.dirExists p.dropLast with
  | false =>
    rw [if_neg (by simp [h2])] at h
    cases h
  | true =>
    rw [if_pos h2] at h
    injection h with h'
    subst h'
    have hcontent : ({ fs with files := (p, c1) :: fs.files } : FS).fileContent p = some c1 := by
      unfold FS.fileContent
      simp [List.lookup]
    refine ⟨hcontent, ?_⟩
    have hex : ({ fs with files := (p, c1) :: fs.files } : FS).fileExists p = true := by
      unfold FS.fileExists
      rw [hcontent]
      rfl
    unfold create_file
    rw [if_pos hex]

/-- Witness for C5: materialize `notes.txt` with `alpha`, then attempt to
re-materialize it with `beta`; the content stays `alpha` and the second
call is a successful no-op. -/
theorem C5_witness :
    c5_fs1.fileContent ["notes.txt"] = some "alpha" ∧
    create_file c5_fs1 ["notes.txt"] "beta" = Except.ok c5_fs1 :=
  C5_theorem fsRootOnly ["notes.txt"] "alpha" "beta" c5_fs1 (by rfl) (by rfl)

/-- Claim C9: on a well-formed filesystem state, `create_file` at a path
whose parent directory does not exist fails with the underlying creation
error and creates nothing — it never creates parent directories
implicitly. -/
theorem C9_theorem (fs : FS) (p : FsPath) (c : String)
    (hwf : fs.wf = true) (hdir : fs.dirExists p.dropLast = false) :
    create_file fs p c = Except.error IoError.CreateFailed := by
  have hne : fs.fileExists p = false := by
    cases hfe : fs.fileExists p with
    | false => rfl
    | true =>
      exfalso
      unfold FS.fileExists at hfe
      obtain ⟨c0, hc0⟩ := Option.isSome_iff_exists.mp hfe
      have hmem : (p, c0) ∈ fs.files := lookup_pair_mem fs.files p c0 hc0
      have hall := List.all_eq_true.mp hwf (p, c0) hmem
      unfold FS.dirExists at hdir
      simp only at hall
      rw [hall] at hdir
      cases hdir
  unfold create_file
  rw [if_neg (by simp [hne]), if_neg (by simp [hdir])]

/-- Witness for C9: creating a file under a missing directory in the
root-only filesystem fails. -/
theorem C9_witness :
    create_file fsRootOnly ["missing", "f.txt"] "c" = Except.error IoError.CreateFailed :=
  C9_theorem fsRootOnly ["missing", "f.txt"] "c" (by rfl) (by rfl)

/-- Claim C4: scaffold non-destructiveness — every file that exists
before a `create_scaffold` invocation (in particular the manifest, the
solution template, `example.txt`, and any non-empty `input.txt`) has
exactly the same content after a successful invocation; `create_scaffold`
never modifies an existing file. -/
theorem C4_theorem (fs : FS) (day year : Nat) (fetched : Except FetchError String) (fs' : FS)
    (h : create_scaffold fs day year fetched = Except.ok fs') (p : FsPath) (c : String)
    (hc : fs.fileContent p = some c) : fs'.fileContent p = some c := by
  simp only [create_scaffold] at h
  split at h
  next e heq => cases h
  next fs2 heq2 =>
    split at h
    next e heq => cases h
    next fs3 heq3 =>
      split at h
      next e heq4 => cases h
      next fs4 heq4 =>
        split at h
        next e heq5 => cases h
        next fs5 heq5 =>
          injection h with h'
          subst h'
          have p2 := create_file_preserves _ _ _ _ heq2 p c hc
          have p3 := create_file_preserves _ _ _ _ heq3 p c p2
          have p4 : fs4.fileContent p = some c := by
            split at heq4
            · split at heq4
              next input_data _ => exact create_file_preserves _ _ _ _ heq4 p c p3
              next e _ => exact create_file_preserves _ _ _ _ heq4 p c p3
            · injection heq4 with h4
              subst h4
              exact p3
          split at heq5
          · exact create_file_preserves _ _ _ _ heq5 p c p4
          · injection heq5 with h5
            subst h5
            exact p4

/-- Witness for C4: scaffold day 5 of 2024, manually edit the generated
`src/main.rs`, scaffold again; the manual edit survives the second
invocation. -/
theorem C4_witness :
    c4_fs2.fileContent ["solutions", "2024", "day05", "src", "main.rs"] =
      some "// Modified content" :=
  C4_theorem c4_fs1e 5 2024 (Except.error FetchError.MissingCredential) c4_fs2 (by rfl)
    ["solutions", "2024", "day05", "src", "main.rs"] "// Modified content" (by rfl)

/-- Claim C1 (code bug): re-scaffolding day 1 of 2024 when `input.txt`
exists but is empty, with the fetcher succeeding with text `"data"`,
leaves `input.txt` empty: the gating correctly triggers the fetch, but
`create_file` refuses to overwrite the existing (empty) file, so the
fetched text is never materialized — contradicting the spec and the
tool's own success message. -/
theorem C1_theorem :
    (create_scaffold c1_preState 1 2024 (Except.ok "data")).map
        (fun fs => fs.fileContent ["solutions", "2024", "day01", "input.txt"]) =
      Except.ok (some "") ∧ (some "" : Option String) ≠ some "data" := by
  constructor
  · rfl
  · decide

/-! ## The two fetcher variants -/

/-- Claim C8: for every day, year, base URL, present credential, 2xx
status and decoded body `B`, the fetch.rs variant returns `B` verbatim
while the main.rs variant returns `B` with trailing whitespace trimmed;
the two agree exactly when `B` has no trailing whitespace. -/
theorem C8_theorem (day year : Nat) (base_url sess B : String) (status : Nat)
    (h1 : 200 ≤ status) (h2 : status ≤ 299) :
    fetch_input_with_base_url_fetch_rs day year base_url (some sess)
        (HttpOutcome.response status (some B)) = Except.ok B ∧
    fetch_input_with_base_url_main_rs day year base_url (some sess)
        (HttpOutcome.response status (some B)) = Except.ok (rsTrimEnd B) ∧
    (fetch_input_with_base_url_main_rs day year base_url (some sess)
          (HttpOutcome.response status (some B)) =
        fetch_input_with_base_url_fetch_rs day year base_url (some sess)
          (HttpOutcome.response status (some B)) ↔
      rsTrimEnd B = B) := by
  have hs : statusIsSuccess status = true := by
    unfold statusIsSuccess
    simp [h1, h2]
  refine ⟨?_, ?_, ?_⟩
  · unfold fetch_input_with_base_url_fetch_rs
    simp [hs]
  · unfold fetch_input_with_base_url_main_rs
    simp [hs]
  · unfold fetch_input_with_base_url_fetch_rs fetch_input_with_base_url_main_rs
    simp [hs, Except.ok.injEq]

/-- Witness for C8 on a concrete 200 response whose body ends in
whitespace. -/
theorem C8_witness :
    fetch_input_with_base_url_fetch_rs 1 2024 "https://example.test" (some "tok")
        (HttpOutcome.response 200 (some "abc \n")) = Except.ok "abc \n" ∧
    fetch_input_with_base_url_main_rs 1 2024 "https://example.test" (some "tok")
        (HttpOutcome.response 200 (some "abc \n")) = Except.ok (rsTrimEnd "abc \n") ∧
    (fetch_input_with_base_url_main_rs 1 2024 "https://example.test" (some "tok")
          (HttpOutcome.response 200 (some "abc \n")) =
        fetch_input_with_base_url_fetch_rs 1 2024 "https://example.test" (some "tok")
          (HttpOutcome.response 200 (some "abc \n")) ↔
      rsTrimEnd "abc \n" = "abc \n") :=
  C8_theorem 1 2024 "https://example.test" "tok" "abc \n" 200 (by decide) (by decide)

/-! ## Batch runner: failures are skipped -/

theorem runDays_ok (exec : Nat → DayExec) :
    ∀ (ds : List Nat) (acc : List DayResult),
      (∀ d ∈ ds, exec d ≠ DayExec.launchFailed) →
      runDays exec ds acc = Except.ok (acc ++ ds.filterMap (execResult exec)) := by
  intro ds
  induction ds with
  | nil => intro acc _; simp [runDays]
  | cons d ds ih =>
    intro acc h
    have hd : exec d ≠ DayExec.launchFailed := h d (List.mem_cons_self _ _)
    have hds : ∀ x ∈ ds, exec x ≠ DayExec.launchFailed := fun x hx =>
      h x (List.mem_cons_of_mem _ hx)
    cases he : exec d with
    | missing =>
      simp only [runDays, he]
      rw [ih acc hds]
      simp [List.filterMap_cons, execResult, he]
    | launchFailed => exact absurd he hd
    | exited success stdout =>
      cases success with
      | true =>
        simp only [runDays, he, if_true]
        rw [ih (acc ++ [mkDayResult d stdout]) hds]
        simp [List.filterMap_cons, execResult, he]
      | false =>
        simp only [runDays, he, Bool.false_eq_true, if_false]
        rw [ih acc hds]
        simp [List.filterMap_cons, execResult, he]

/-- Claim C6: when no subprocess launch failure occurs, `run_all`
returns success with exactly the results of the days whose subprocess
exited successfully; every day whose subprocess exited non-zero is
skipped (it contributes no entry to the results) and never aborts the
batch. -/
theorem C6_theorem (exec : Nat → DayExec)
    (h : ∀ d ∈ List.range' 1 25, exec d ≠ DayExec.launchFailed) :
    run_all exec = Except.ok (successResults exec) ∧
    ∀ d stdout, exec d = DayExec.exited false stdout →
      ∀ r ∈ successResults exec, r.day ≠ d := by
  constructor
  · unfold run_all successResults
    rw [runDays_ok exec (List.range' 1 25) [] h]
    rw [List.nil_append]
  · intro d stdout hd r hr
    unfold successResults at hr
    obtain ⟨a, _, hfa⟩ := List.mem_filterMap.mp hr
    unfold execResult at hfa
    cases hea : exec a with
    | missing => rw [hea] at hfa; cases hfa
    | launchFailed => rw [hea] at hfa; cases hfa
    | exited success stdout2 =>
      cases success with
      | false => rw [hea] at hfa; cases hfa
      | true =>
        rw [hea] at hfa
        injection hfa with h'
        intro hday
        have hra : r.day = a := by rw [← h']; rfl
        rw [hra] at hday
        subst hday
        rw [hea] at hd
        injection hd with hb _
        cases hb

/-- Witness for C6: day 1 succeeds, day 2 exits non-zero, the rest have
no scaffold; the batch returns success with only day 1's result and day
2 contributes nothing. -/
theorem C6_witness :
    run_all c6Exec = Except.ok (successResults c6Exec) ∧
    ∀ d stdout, c6Exec d = DayExec.exited false stdout →
      ∀ r ∈ successResults c6Exec, r.day ≠ d :=
  C6_theorem c6Exec (by decide)

/-! ## Aggregation: fastest and slowest selection -/

theorem ratCmp_gt_iff (a b : ℚ) : ratCmp a b = Ordering.gt ↔ b < a := by
  unfold ratCmp
  split_ifs with h1 h2
  · exact iff_of_false (by decide) (lt_asymm h1)
  · exact iff_of_true rfl h2
  · exact iff_of_false (by decide) h2

theorem foldl_cmpMinBy_first (xs : List DayResult) : ∀ x : DayResult,
    ∃ i : Nat,
      (x :: xs)[i]? = some (List.foldl (cmpMinBy cmpByTotal) x xs) ∧
      (∀ j r, j < i → (x :: xs)[j]? = some r →
        (List.foldl (cmpMinBy cmpByTotal) x xs).total_time < r.total_time) ∧
      (∀ r ∈ x :: xs, (List.foldl (cmpMinBy cmpByTotal) x xs).total_time ≤ r.total_time) := by
  induction xs with
  | nil =>
    intro x
    refine ⟨0, rfl, ?_, ?_⟩
    · intro j r hj _
      omega
    · intro r hr
      rw [List.mem_singleton] at hr
      subst hr
      exact le_refl _
  | cons y ys ih =>
    intro x
    rw [List.foldl_cons]
    by_cases hxy : cmpByTotal x y = Ordering.gt
    · have hylt : y.total_time < x.total_time := by
        unfold cmpByTotal at hxy
        exact (ratCmp_gt_iff _ _).mp hxy
      have hstep : cmpMinBy cmpByTotal x y = y := by
        unfold cmpMinBy
        rw [if_pos hxy]
      rw [hstep]
      obtain ⟨i, h1, h2, h3⟩ := ih y
      refine ⟨i + 1, ?_, ?_, ?_⟩
      · rw [List.getElem?_cons_succ]
        exact h1
      · intro j r hj hr
        cases j with
        | zero =>
          rw [List.getElem?_cons_zero] at hr
          injection hr with hr'
          subst hr'
          exact lt_of_le_of_lt (h3 y (List.mem_cons_self _ _)) hylt
        | succ j' =>
          rw [List.getElem?_cons_succ] at hr
          exact h2 j' r (by omega) hr
      · intro r hr
        rcases List.mem_cons.mp hr with hr' | hr'
        · subst hr'
          exact le_of_lt (lt_of_le_of_lt (h3 y (List.mem_cons_self _ _)) hylt)
        · exact h3 r hr'
    · have hxley : x.total_time ≤ y.total_time := by
        unfold cmpByTotal at hxy
        exact le_of_not_lt (fun hlt => hxy ((ratCmp_gt_iff _ _).mpr hlt))
      have hstep : cmpMinBy cmpByTotal x y = x := by
        unfold cmpMinBy
        rw [if_neg hxy]
      rw [hstep]
      obtain ⟨i, h1, h2, h3⟩ := ih x
      cases i with
      | zero =>
        rw [List.getElem?_cons_zero] at h1
        injection h1 with h1'
        refine ⟨0, ?_, ?_, ?_⟩
        · rw [List.getElem?_cons_zero, ← h1']
        · intro j r hj _
          omega
        · intro r hr
          rcases List.mem_cons.mp hr with hr' | hr'
          · subst hr'
            rw [← h1']
          · rcases List.mem_cons.mp hr' with hr'' | hr''
            · subst hr''
              rw [← h1']
              exact hxley
            · exact h3 r (List.mem_cons_of_mem _ hr'')
      | succ i' =>
        rw [List.getElem?_cons_succ] at h1
        refine ⟨i' + 2, ?_, ?_, ?_⟩
        · rw [List.getElem?_cons_succ, List.getElem?_cons_succ]
          exact h1
        · intro j r hj hr
          cases j with
          | zero =>
            rw [List.getElem?_cons_zero] at hr
            injection hr with hr'
            subst hr'
            exact h2 0 x (by omega) List.getElem?_cons_zero
          | succ j' =>
            cases j' with
            | zero =>
              rw [List.getElem?_cons_succ, List.getElem?_cons_zero] at hr
              injection hr with hr'
              subst hr'
              exact lt_of_lt_of_le (h2 0 x (by omega) List.getElem?_cons_zero) hxley
            | succ j'' =>
              rw [List.getElem?_cons_succ, List.getElem?_cons_succ] at hr
              refine h2 (j'' + 1) r (by omega) ?_
              rw [List.getElem?_cons_succ]
              exact hr
        · intro r hr
          rcases List.mem_cons.mp hr with hr' | hr'
          · rw [hr']
            exact h3 x (List.mem_cons_self _ _)
          · rcases List.mem_cons.mp hr' with hr'' | hr''
            · subst hr''
              exact le_trans (h3 x (List.mem_cons_self _ _)) hxley
            · exact h3 r (List.mem_cons_of_mem _ hr'')

theorem foldl_cmpMaxBy_last (xs : List DayResult) : ∀ x : DayResult,
    ∃ i : Nat,
      (x :: xs)[i]? = some (List.foldl (cmpMaxBy cmpByTotal) x xs) ∧
      (∀ j r, i < j → (x :: xs)[j]? = some r →
        r.total_time < (List.foldl (cmpMaxBy cmpByTotal) x xs).total_time) ∧
      (∀ r ∈ x :: xs, r.total_time ≤ (List.foldl (cmpMaxBy cmpByTotal) x xs).total_time) := by
  induction xs with
  | nil =>
    intro x
    refine ⟨0, rfl, ?_, ?_⟩
    · intro j r hj hr
      cases j with
      | zero => omega
      | succ j' =>
        rw [List.getElem?_cons_succ] at hr
        simp at hr
    · intro r hr
      rw [List.mem_singleton] at hr
      subst hr
      exact le_refl _
  | cons y ys ih =>
    intro x
    rw [List.foldl_cons]
    by_cases hxy : cmpByTotal x y = Ordering.gt
    · have hylt : y.total_time < x.total_time := by
        unfold cmpByTotal at hxy
        exact (ratCmp_gt_iff _ _).mp hxy
      have hstep : cmpMaxBy cmpByTotal x y = x := by
        unfold cmpMaxBy
        rw [if_pos hxy]
      rw [hstep]
      obtain ⟨i, h1, h2, h3⟩ := ih x
      cases i with
      | zero =>
        rw [List.getElem?_cons_zero] at h1
        injection h1 with h1'
        refine ⟨0, ?_, ?_, ?_⟩
        · rw [List.getElem?_cons_zero, ← h1']
        · intro j r hj hr
          cases j with
          | zero => omega
          | succ j' =>
            rw [List.getElem?_cons_succ] at hr
            cases j' with
            | zero =>
              rw [List.getElem?_cons_zero] at hr
              injection hr with hr'
              subst hr'
              rw [← h1']
              exact hylt
            | succ j'' =>
              rw [List.getElem?_cons_succ] at hr
              refine h2 (j'' + 1) r (by omega) ?_
              rw [List.getElem?_cons_succ]
              exact hr
        · intro r hr
          rcases List.mem_cons.mp hr with hr' | hr'
          · subst hr'
            rw [← h1']
          · rcases List.mem_cons.mp hr' with hr'' | hr''
            · subst hr''
              rw [← h1']
              exact le_of_lt hylt
            · exact h3 r (List.mem_cons_of_mem _ hr'')
      | succ i' =>
        rw [List.getElem?_cons_succ] at h1
        refine ⟨i' + 2, ?_, ?_, ?_⟩
        · rw [List.getElem?_cons_succ, List.getElem?_cons_succ]
          exact h1
        · intro j r hj hr
          cases j with
          | zero => omega
          | succ j' =>
            cases j' with
            | zero => omega
            | succ j'' =>
              rw [List.getElem?_cons_succ, List.getElem?_cons_succ] at hr
              refine h2 (j'' + 1) r (by omega) ?_
              rw [List.getElem?_cons_succ]
              exact hr
        · intro r hr
          rcases List.mem_cons.mp hr with hr' | hr'
          · rw [hr']
            exact h3 x (List.mem_cons_self _ _)
          · rcases List.mem_cons.mp hr' with hr'' | hr''
            · subst hr''
              exact le_trans (le_of_lt hylt) (h3 x (List.mem_cons_self _ _))
            · exact h3 r (List.mem_cons_of_mem _ hr'')
    · have hxley : x.total_time ≤ y.total_time := by
        unfold cmpByTotal at hxy
        exact le_of_not_lt (fun hlt => hxy ((ratCmp_gt_iff _ _).mpr hlt))
      have hstep : cmpMaxBy cmpByTotal x y = y := by
        unfold cmpMaxBy
        rw [if_neg hxy]
      rw [hstep]
      obtain ⟨i, h1, h2, h3⟩ := ih y
      refine ⟨i + 1, ?_, ?_, ?_⟩
      · rw [List.getElem?_cons_succ]
        exact h1
      · intro j r hj hr
        cases j with
        | zero => omega
        | succ j' =>
          rw [List.getElem?_cons_succ] at hr
          exact h2 j' r (by omega) hr
      · intro r hr
        rcases List.mem_cons.mp hr with hr' | hr'
        · subst hr'
          exact le_trans hxley (h3 y (List.mem_cons_self _ _))
        · exact h3 r hr'

/-- Claim C3 (amended): over a non-empty results collection, the
aggregate's average time equals the total time divided by the number of
results; the fastest day is the minimum-total-time day with ties broken
by FIRST encountered, while the slowest day is the maximum-total-time day
with ties broken by LAST encountered (among equal maximal totals the
latest result is reported as slowest). -/
theorem C3_theorem (results : List DayResult) (hne : results ≠ []) :
    ∃ s : Summary, aggregate results = some s ∧
      s.avg_time = s.total_time / (s.days_count : ℚ) ∧
      (∃ i f, s.fastest = some f ∧ results[i]? = some f ∧
        (∀ (j : Nat) (r : DayResult), j < i → results[j]? = some r → f.total_time < r.total_time) ∧
        (∀ r : DayResult, r ∈ results → f.total_time ≤ r.total_time)) ∧
      (∃ i g, s.slowest = some g ∧ results[i]? = some g ∧
        (∀ (j : Nat) (r : DayResult), i < j → results[j]? = some r → r.total_time < g.total_time) ∧
        (∀ r : DayResult, r ∈ results → r.total_time ≤ g.total_time)) := by
  cases results with
  | nil => exact absurd rfl hne
  | cons x xs =>
    refine ⟨_, rfl, rfl, ?_, ?_⟩
    · obtain ⟨i, h1, h2, h3⟩ := foldl_cmpMinBy_first xs x
      exact ⟨i, _, rfl, h1, h2, h3⟩
    · obtain ⟨i, h1, h2, h3⟩ := foldl_cmpMaxBy_last xs x
      exact ⟨i, _, rfl, h1, h2, h3⟩

/-- Claim C3 counterexample: with two results of equal total time (day 1
then day 2), the reported slowest day is day 2 — the LAST encountered —
whereas the claim says the earliest day among equal totals is reported as
slowest. -/
theorem C3_counterexample :
    (aggregate [c3_r1, c3_r2]).map (fun s => s.slowest.map (fun r => r.day)) = some (some 2) ∧
    (2 : Nat) ≠ 1 := by
  constructor
  · simp [aggregate, rustMaxBy, rustMinBy, cmpMaxBy, cmpMinBy, cmpByTotal, ratCmp,
      DayResult.total_time, c3_r1, c3_r2]
  · decide

/-- Witness for C3 on the singleton collection containing `c3_r1`. -/
theorem C3_witness :
    ∃ s : Summary, aggregate [c3_r1] = some s ∧
      s.avg_time = s.total_time / (s.days_count : ℚ) ∧
      (∃ i f, s.fastest = some f ∧ [c3_r1][i]? = some f ∧
        (∀ (j : Nat) (r : DayResult), j < i → [c3_r1][j]? = some r → f.total_time < r.total_time) ∧
        (∀ r : DayResult, r ∈ [c3_r1] → f.total_time ≤ r.total_time)) ∧
      (∃ i g, s.slowest = some g ∧ [c3_r1][i]? = some g ∧
        (∀ (j : Nat) (r : DayResult), i < j → [c3_r1][j]? = some r → r.total_time < g.total_time) ∧
        (∀ r : DayResult, r ∈ [c3_r1] → r.total_time ≤ g.total_time)) :=
  C3_theorem [c3_r1] (by decide)
